import Mathlib

/-!
Verification development for the governance-kit repository.

The Python sources are shallowly embedded:
* `src/governance/overlay.py` — `apply_governance_overlay`, `check_governance_overlay`
* `src/governance/cli.py` — `is_constitution_customized` and the `init` command flow

File contents are `String`s; the filesystem state relevant to the overlay
merger is a `Scaffold` record (constitution file, governance directory as an
association list), and the bundled rules directory is a function
`String → Option String` (`none` models `FileNotFoundError` on `read_text`).
Python string primitives (`in`, `count`, `strip`, `split`, `title`,
`replace`, `startswith`) are modelled on `List Char`.
-/

set_option maxRecDepth 40000

namespace GovKit

/-- Python `pat in s` on character lists: some suffix of `s` has `pat` as a
prefix (the empty pattern is contained in everything). -/
def containsL (pat : List Char) : List Char → Bool
  | [] => pat.isEmpty
  | c :: rest => pat.isPrefixOf (c :: rest) || containsL pat rest

/-- Number of positions of `s` at which `pat` occurs (counts every
occurrence; for the non-self-overlapping overlay marker this agrees with
Python `s.count(pat)`). -/
def occL (pat : List Char) : List Char → Nat
  | [] => if pat.isEmpty then 1 else 0
  | c :: rest => (if pat.isPrefixOf (c :: rest) then 1 else 0) + occL pat rest

/-- Python `s.strip()`: drop whitespace from both ends. -/
def stripL (l : List Char) : List Char :=
  ((l.dropWhile Char.isWhitespace).reverse.dropWhile Char.isWhitespace).reverse

/-- Python `s.split("\n")`. -/
def splitNlL : List Char → List (List Char)
  | [] => [[]]
  | c :: rest =>
    if c = '\n' then [] :: splitNlL rest
    else
      match splitNlL rest with
      | [] => [[c]]
      | l :: ls => (c :: l) :: ls

/-- Python `s.title()` (ASCII case mapping, which is all the sources use):
the boolean argument records whether the previous character was alphabetic. -/
def titleL : Bool → List Char → List Char
  | _, [] => []
  | prevAlpha, c :: rest =>
    (if c.isAlpha then (if prevAlpha then c.toLower else c.toUpper) else c) ::
      titleL c.isAlpha rest

/-- Python `s.replace(pat, repl)` for a non-empty pattern (the sources only
ever call it with the literal pattern `".md"`): leftmost, non-overlapping
scan. When the pattern matches at the current position, `repl` is emitted
and the remaining `pat.length - 1` matched characters are consumed via the
skip counter without re-checking for matches inside the match. -/
def replaceGo (pat repl : List Char) : List Char → Nat → List Char
  | [], _ => []
  | c :: rest, 0 =>
    if pat ≠ [] ∧ pat.isPrefixOf (c :: rest) then
      repl ++ replaceGo pat repl rest (pat.length - 1)
    else
      c :: replaceGo pat repl rest 0
  | _ :: rest, skip + 1 => replaceGo pat repl rest skip

def replaceL (pat repl l : List Char) : List Char := replaceGo pat repl l 0

/-- Python `"\n".join(sections)`. -/
def joinNl : List String → String
  | [] => ""
  | [s] => s
  | s :: s₂ :: rest => s ++ "\n" ++ joinNl (s₂ :: rest)

/-- String-level wrappers. -/
def containsStr (pat s : String) : Bool := containsL pat.data s.data

def occStr (pat s : String) : Nat := occL pat.data s.data

def pyStrip (s : String) : String := ⟨stripL s.data⟩

def pySplitNl (s : String) : List String := (splitNlL s.data).map fun l => ⟨l⟩

def pyTitle (s : String) : String := ⟨titleL false s.data⟩

def pyReplace (s pat repl : String) : String := ⟨replaceL pat.data repl.data s.data⟩

def pyStartsWith (s pre : String) : Bool := pre.data.isPrefixOf s.data

/-- Association list for the governance directory: `assocGet g name` models
`(gov_dir / name).exists()` / `read_text()`. -/
def assocGet (g : List (String × String)) (k : String) : Option String :=
  match g with
  | [] => none
  | (k₂, v) :: rest => if k₂ = k then some v else assocGet rest k

/-- Python `(gov_dir / name).write_text(content)`: overwrite if present, else create. -/
def assocSet (g : List (String × String)) (k v : String) : List (String × String) :=
  match g with
  | [] => [(k, v)]
  | (k₂, v₂) :: rest => if k₂ = k then (k, v) :: rest else (k₂, v₂) :: assocSet rest k v

/-! ## Constants from `src/governance/overlay.py` -/

/-- Constant `OVERLAY_MARKER` (overlay.py line 13). -/
def OVERLAY_MARKER : String := "# --- 🏛️ GOVERNANCE OVERLAY ---"

/-- Constant `rule_files` (overlay.py line 59). -/
def rule_files : List String := ["architecture.md", "stack.md", "process.md"]

/-! ## The overlay merger (`apply_governance_overlay`) -/

/-- Filesystem state of `.specify/memory/` seen by the merger:
`constitution` is `memory/constitution.md` (`none` = absent), `gov` is the
`memory/governance/` directory (`none` = absent, otherwise the files it
holds as name–content pairs). -/
structure Scaffold where
  constitution : Option String
  gov : Option (List (String × String))
deriving DecidableEq, Repr

/-- One iteration of the copy loop of overlay.py lines 61–69: read the rule
from the bundle and write it into the governance directory, skipping
(`pass`) on `FileNotFoundError`. -/
def copyRule (bundle : String → Option String) (g : List (String × String)) (r : String) :
    List (String × String) :=
  match bundle r with
  | some c => assocSet g r c
  | none => g

/-- The whole copy loop of overlay.py lines 61–69, over `rule_files` in
declared order. -/
def mergedGov (bundle : String → Option String) (gov0 : List (String × String)) :
    List (String × String) :=
  rule_files.foldl (copyRule bundle) gov0

/-- One subsection of the appended block (overlay.py lines 76–78):
`f"## {section_name} Governance\n\n{rule_content}"` with
`section_name = rule_name.replace(".md", "").title()` and the content
`.strip()`ped on read-back. -/
def ruleSection (ruleName content : String) : String :=
  "## " ++ pyTitle (pyReplace ruleName ".md" "") ++ " Governance\n\n" ++ pyStrip content

/-- The placeholder subsection (overlay.py lines 82–85). -/
def placeholderSection : String :=
  "## Governance Rules\n\n*Add rules to `.specify/memory/governance/` directory.*"

/-- The section list built in overlay.py lines 72–85: one subsection per
rule file that exists in the governance directory, in declared order; the
placeholder if none exists. -/
def buildSections (g : List (String × String)) : List String :=
  let secs := rule_files.filterMap fun r => (assocGet g r).map (ruleSection r)
  if secs.isEmpty then [placeholderSection] else secs

/-- Modelled from the spec: the bundled rules directory (`governance/rules/`,
package data that is not under `src/`) supplies all three rule documents —
spec §8: "a bundle containing all three rule documents". Only its
completeness matters to the claims, not the document texts. -/
def bundleComplete (bundle : String → Option String) : Prop :=
  ∀ r ∈ rule_files, bundle r ≠ none

/-- The fixed sentence of the appended block (overlay.py line 91). -/
def nonNegotiableLine : String :=
  "The following governance rules are **non-negotiable** and apply to all development phases."

/-- The full `governance_section` f-string of overlay.py lines 87–97. -/
def governanceSection (sections : List String) : String :=
  "\n\n" ++ OVERLAY_MARKER ++ "\n\n" ++ nonNegotiableLine ++ "\n\n" ++
    joinNl sections ++ "\n\n---\n*Governance overlay applied by governance-kit*\n"

/-- Function `apply_governance_overlay(specify_dir)` (overlay.py lines 25–103).
Returns the resulting scaffold state together with the Python result:
`Except.error` models the raised `FileNotFoundError`, `Except.ok` the
returned boolean. `specifyDir` is the path string used in the error
message. -/
def applyGovernanceOverlay (bundle : String → Option String) (specifyDir : String)
    (s : Scaffold) : Scaffold × Except String Bool :=
  match s.constitution with
  | none =>
    (s, Except.error
      (specifyDir ++ "/memory/constitution.md not found. Run '/speckit.constitution' first."))
  | some content =>
    if containsStr OVERLAY_MARKER content then
      (s, Except.ok false)
    else
      let gov₁ := mergedGov bundle (s.gov.getD [])
      let sections := buildSections gov₁
      ({ constitution := some (content ++ governanceSection sections),
         gov := some gov₁ }, Except.ok true)

/-! ## The status check (`check_governance_overlay`, overlay.py lines 106–131) -/

def checkGovernanceOverlay (s : Scaffold) : List String :=
  (match s.constitution with
   | none => ["constitution.md not found"]
   | some c =>
     if containsStr OVERLAY_MARKER c then []
     else ["Governance overlay not in constitution.md"]) ++
  (match s.gov with
   | none => ["governance/ directory not found"]
   | some g =>
     rule_files.filterMap fun r =>
       if (assocGet g r).isNone then some ("Missing rule: " ++ r) else none)

/-! ## The customization detector (`is_constitution_customized`, cli.py lines 30–76) -/

/-- What reading `constitution.md` can yield: the file is absent, exists but
`read_text` raises (`UnicodeDecodeError`/`PermissionError`/`OSError`), or is
readable with the given content. -/
inductive CFile where
  | absent
  | unreadable
  | readable (content : String)
deriving DecidableEq, Repr

/-- Constant `template_markers` (cli.py lines 52–60). -/
def template_markers : List String :=
  ["[PROJECT_NAME]", "[PRINCIPLE_1_NAME]", "[PRINCIPLE_2_NAME]", "[YOUR_PROJECT]",
   "[TEAM_NAME]", "TODO:", "FIXME:"]

def isConstitutionCustomized (f : CFile) : Bool :=
  match f with
  | CFile.absent => false
  | CFile.unreadable => true
  | CFile.readable content =>
    if template_markers.any (fun m => containsStr m content) then false
    else
      let lines := ((pySplitNl content).map pyStrip).filter fun l =>
        !(l = "") && !(pyStartsWith l "#")
      decide (0 < lines.length)

/-! ## The `init` command (`cli.py` lines 141–275)

The world visible to `init`: whether `.specify/` exists, the state of
`.specify/memory/constitution.md` (a `CFile`, since the detector
distinguishes unreadable files), and the governance directory. External
effects are inputs: whether `shutil.copytree` succeeds (`backupOk`), the
return code of the `specify init` subprocess (`speckitRc`), and the world
that subprocess leaves behind (`wAfterSpeckit`). -/

structure World where
  specifyExists : Bool
  constitution : CFile
  gov : Option (List (String × String))
deriving DecidableEq, Repr

structure InitFlags where
  dryRun : Bool
  force : Bool
  skipSpeckit : Bool
  destroyContent : Bool
deriving DecidableEq, Repr

/-- Outcome of one `governance init` invocation: the process exit code
(`sys.exit(1)` on blocking conditions, 0 otherwise; an uncaught exception
also exits 1), whether a backup directory was created, whether the external
`specify` subprocess was launched, whether the overlay reported
`applied = True`, and the final world. -/
structure InitOutcome where
  exitCode : Nat
  backupMade : Bool
  speckitRan : Bool
  overlayApplied : Bool
  finalWorld : World
deriving DecidableEq, Repr

/-- Reading a `CFile` as the merger does (`Path.read_text` with no handler):
`none` means the file is absent. The unreadable case never reaches the
merger in `initCmd`; it is mapped separately there. -/
def cfileOfOpt : Option String → CFile
  | none => CFile.absent
  | some c => CFile.readable c

/-- The `init` command flow (cli.py lines 141–275), with the echo calls
dropped. Step 1 (unless `--skip-speckit`): if `.specify` exists and
`--force` is absent, only an informational message is printed; otherwise a
customized constitution without `--destroy-content` is refused (exit 1),
with `--destroy-content` a backup is attempted first (exit 1 on failure),
then the `specify` subprocess runs unless `--dry-run` (exit 1 on nonzero
return code). Step 2: exit 1 if `.specify` is still missing. Step 3: exit 1
if `constitution.md` is missing. Step 4 (unless `--dry-run`): apply the
overlay, exiting 1 on `FileNotFoundError`; an unreadable constitution makes
`read_text` raise an uncaught `OSError` before any mutation, which
terminates the interpreter with exit code 1. -/
def initCmd (fl : InitFlags) (w : World) (backupOk : Bool) (speckitRc : Nat)
    (wAfterSpeckit : World) (bundle : String → Option String) : InitOutcome :=
  let stage1 : InitOutcome ⊕ (World × Bool × Bool) :=
    if fl.skipSpeckit then
      Sum.inr (w, false, false)
    else if w.specifyExists && !fl.force then
      Sum.inr (w, false, false)
    else if w.specifyExists && isConstitutionCustomized w.constitution
        && !fl.destroyContent then
      Sum.inl { exitCode := 1, backupMade := false, speckitRan := false,
                overlayApplied := false, finalWorld := w }
    else
      let needBackup := w.specifyExists && isConstitutionCustomized w.constitution
      if needBackup && !fl.dryRun && !backupOk then
        Sum.inl { exitCode := 1, backupMade := false, speckitRan := false,
                  overlayApplied := false, finalWorld := w }
      else
        let backupMade := needBackup && !fl.dryRun
        if fl.dryRun then
          Sum.inr (w, backupMade, false)
        else if speckitRc ≠ 0 then
          Sum.inl { exitCode := 1, backupMade := backupMade, speckitRan := true,
                    overlayApplied := false, finalWorld := wAfterSpeckit }
        else
          Sum.inr (wAfterSpeckit, backupMade, true)
  match stage1 with
  | Sum.inl out => out
  | Sum.inr (w₁, backupMade, speckitRan) =>
    if !w₁.specifyExists then
      { exitCode := 1, backupMade := backupMade, speckitRan := speckitRan,
        overlayApplied := false, finalWorld := w₁ }
    else
      match w₁.constitution with
      | CFile.absent =>
        { exitCode := 1, backupMade := backupMade, speckitRan := speckitRan,
          overlayApplied := false, finalWorld := w₁ }
      | CFile.unreadable =>
        if fl.dryRun then
          { exitCode := 0, backupMade := backupMade, speckitRan := speckitRan,
            overlayApplied := false, finalWorld := w₁ }
        else
          { exitCode := 1, backupMade := backupMade, speckitRan := speckitRan,
            overlayApplied := false, finalWorld := w₁ }
      | CFile.readable c =>
        if fl.dryRun then
          { exitCode := 0, backupMade := backupMade, speckitRan := speckitRan,
            overlayApplied := false, finalWorld := w₁ }
        else
          let res := applyGovernanceOverlay bundle ".specify"
            { constitution := some c, gov := w₁.gov }
          let w₂ : World :=
            { specifyExists := w₁.specifyExists,
              constitution := cfileOfOpt res.1.constitution,
              gov := res.1.gov }
          match res.2 with
          | Except.error _ =>
            { exitCode := 1, backupMade := backupMade, speckitRan := speckitRan,
              overlayApplied := false, finalWorld := w₂ }
          | Except.ok applied =>
            { exitCode := 0, backupMade := backupMade, speckitRan := speckitRan,
              overlayApplied := applied, finalWorld := w₂ }

/-! ## Decompositions of the appended block used in proofs -/

/-- The fixed text of the appended block before the joined subsections. -/
def gsPre : String := "\n\n" ++ OVERLAY_MARKER ++ "\n\n" ++ nonNegotiableLine ++ "\n\n"

/-- The fixed text of the appended block after the joined subsections. -/
def gsPost : String := "\n\n---\n*Governance overlay applied by governance-kit*\n"

/-- String `gsPre` without its first and last character (both newlines). -/
def gsPreMid : String :=
  "\n# --- 🏛️ GOVERNANCE OVERLAY ---\n\nThe following governance rules are **non-negotiable** and apply to all development phases.\n"

/-- String `gsPost` without its first character (a newline). -/
def gsPostTail : String := "\n---\n*Governance overlay applied by governance-kit*\n"

/-! ## General lemmas about the string primitives -/

theorem isPrefixOf_append_self (pat b : List Char) : pat.isPrefixOf (pat ++ b) = true := by
  induction pat with
  | nil => simp
  | cons c rest ih =>
    simp only [List.cons_append, List.isPrefixOf_cons₂_self]
    exact ih

theorem containsL_cons_of_tail (pat : List Char) (c : Char) (l : List Char)
    (h : containsL pat l = true) : containsL pat (c :: l) = true := by
  simp only [containsL, Bool.or_eq_true]
  exact Or.inr h

theorem containsL_append_left (pat a l : List Char)
    (h : containsL pat l = true) : containsL pat (a ++ l) = true := by
  induction a with
  | nil => exact h
  | cons c rest ih => exact containsL_cons_of_tail pat c (rest ++ l) ih

theorem containsL_self_append (pat b : List Char) : containsL pat (pat ++ b) = true := by
  cases pat with
  | nil =>
    cases b with
    | nil => rfl
    | cons c rest => simp [containsL]
  | cons c rest =>
    simp only [containsL, List.cons_append, Bool.or_eq_true]
    left
    exact isPrefixOf_append_self (c :: rest) b

theorem occL_eq_zero_iff (pat l : List Char) :
    occL pat l = 0 ↔ containsL pat l = false := by
  induction l with
  | nil =>
    simp only [occL, containsL]
    cases h : pat.isEmpty <;> simp
  | cons c rest ih =>
    simp only [occL, containsL, Nat.add_eq_zero_iff, Bool.or_eq_false_iff]
    cases h : pat.isPrefixOf (c :: rest) <;> simp [ih]

theorem occL_pos_of_contains (pat l : List Char)
    (h : containsL pat l = true) : 0 < occL pat l := by
  rcases Nat.eq_zero_or_pos (occL pat l) with h0 | hpos
  · rw [(occL_eq_zero_iff pat l).mp h0] at h
    cases h
  · exact hpos

/-- A pattern without a newline is a prefix of `a ++ '\n' :: b` exactly when
it is a prefix of `a`: no occurrence can cross a newline it does not
contain. -/
theorem isPrefixOf_across_newline (pat : List Char) (hnl : '\n' ∉ pat) :
    ∀ a b : List Char, pat.isPrefixOf (a ++ '\n' :: b) = pat.isPrefixOf a := by
  induction pat with
  | nil => intro a b; cases a <;> rfl
  | cons p ps ih =>
    intro a b
    have hp : p ≠ '\n' := fun h => hnl (h ▸ List.mem_cons_self p ps)
    have hps : '\n' ∉ ps := fun h => hnl (List.mem_cons_of_mem p h)
    cases a with
    | nil =>
      simp only [List.nil_append, List.isPrefixOf]
      have : (p == '\n') = false := by
        simpa using hp
      simp [this]
    | cons x xs =>
      simp only [List.cons_append, List.isPrefixOf_cons₂]
      rw [ih hps xs b]

theorem occL_cons (pat : List Char) (c : Char) (rest : List Char) :
    occL pat (c :: rest) = (if pat.isPrefixOf (c :: rest) then 1 else 0) + occL pat rest :=
  rfl

/-- A non-empty pattern without a newline is never a prefix of a list that
starts with a newline. -/
theorem isPrefixOf_newline_head (pat : List Char) (hne : pat ≠ []) (hnl : '\n' ∉ pat)
    (b : List Char) : pat.isPrefixOf ('\n' :: b) = false := by
  cases pat with
  | nil => exact absurd rfl hne
  | cons p ps =>
    have hp : p ≠ '\n' := fun h => hnl (h ▸ List.mem_cons_self p ps)
    simp only [List.isPrefixOf_cons₂]
    have : (p == '\n') = false := by simpa using hp
    simp [this]

/-- Occurrence counting distributes over a newline the pattern does not
contain. -/
theorem occL_split_newline (pat : List Char) (hne : pat ≠ []) (hnl : '\n' ∉ pat) :
    ∀ a b : List Char, occL pat (a ++ '\n' :: b) = occL pat a + occL pat b := by
  intro a
  induction a with
  | nil =>
    intro b
    rw [List.nil_append, occL_cons pat '\n' b, isPrefixOf_newline_head pat hne hnl b]
    have hemp : pat.isEmpty = false := by
      cases pat with
      | nil => exact absurd rfl hne
      | cons p ps => rfl
    simp [occL, hemp]
  | cons c a' ih =>
    intro b
    rw [List.cons_append, occL_cons pat c (a' ++ '\n' :: b), occL_cons pat c a']
    have hpre : pat.isPrefixOf (c :: (a' ++ '\n' :: b)) = pat.isPrefixOf (c :: a') := by
      rw [← List.cons_append]
      exact isPrefixOf_across_newline pat hnl (c :: a') b
    rw [hpre, ih b]
    omega

theorem isPrefixOf_append_of_isPrefixOf (pat : List Char) :
    ∀ l b : List Char, pat.isPrefixOf l = true → pat.isPrefixOf (l ++ b) = true := by
  induction pat with
  | nil => intro l b _; simp
  | cons p ps ih =>
    intro l b h
    cases l with
    | nil => simp at h
    | cons x xs =>
      simp only [List.isPrefixOf_cons₂, Bool.and_eq_true] at h
      simp only [List.cons_append, List.isPrefixOf_cons₂, Bool.and_eq_true]
      exact ⟨h.1, ih xs b h.2⟩

theorem containsL_nil_pattern (b : List Char) : containsL [] b = true := by
  cases b with
  | nil => rfl
  | cons c rest => simp [containsL, List.isPrefixOf]

theorem containsL_append_right (pat : List Char) :
    ∀ l b : List Char, containsL pat l = true → containsL pat (l ++ b) = true := by
  intro l
  induction l with
  | nil =>
    intro b h
    simp only [containsL, List.isEmpty_iff] at h
    subst h
    exact containsL_nil_pattern b
  | cons c rest ih =>
    intro b h
    simp only [containsL, Bool.or_eq_true] at h ⊢
    rcases h with h | h
    · exact Or.inl (isPrefixOf_append_of_isPrefixOf pat (c :: rest) b h)
    · exact Or.inr (ih b h)

/-- `stripL l` is an infix of `l` (witnessed by an explicit decomposition). -/
theorem stripL_decomposition (l : List Char) : ∃ u v, l = u ++ stripL l ++ v := by
  have h₁ : ∃ u, l = u ++ l.dropWhile Char.isWhitespace := by
    refine ⟨l.takeWhile Char.isWhitespace, ?_⟩
    rw [List.takeWhile_append_dropWhile]
  obtain ⟨u, hu⟩ := h₁
  set m := l.dropWhile Char.isWhitespace with hm
  have h₂ : ∃ w, m.reverse = w ++ m.reverse.dropWhile Char.isWhitespace := by
    refine ⟨m.reverse.takeWhile Char.isWhitespace, ?_⟩
    rw [List.takeWhile_append_dropWhile]
  obtain ⟨w, hw⟩ := h₂
  refine ⟨u, w.reverse, ?_⟩
  have hm2 : m = stripL l ++ w.reverse := by
    have := congrArg List.reverse hw
    simpa [stripL, ← hm] using this
  nth_rewrite 1 [hu]
  rw [hm2, List.append_assoc]

theorem containsL_of_contains_stripL (pat l : List Char)
    (h : containsL pat (stripL l) = true) : containsL pat l = true := by
  obtain ⟨u, v, hl⟩ := stripL_decomposition l
  nth_rewrite 1 [hl]
  rw [List.append_assoc]
  exact containsL_append_left pat u (stripL l ++ v) (containsL_append_right pat (stripL l) v h)

theorem occL_nil_of_ne (pat : List Char) (h : pat ≠ []) : occL pat [] = 0 := by
  cases pat with
  | nil => exact absurd rfl h
  | cons p ps => rfl

theorem occL_strip_zero (pat : List Char) (v : String) (h : occL pat v.data = 0) :
    occL pat (stripL v.data) = 0 := by
  rw [occL_eq_zero_iff] at h ⊢
  cases hc : containsL pat (stripL v.data) with
  | false => rfl
  | true => exact absurd (containsL_of_contains_stripL pat v.data hc) (by simp [h])

theorem occL_joinNl (pat : List Char) (hne : pat ≠ []) (hnl : '\n' ∉ pat)
    (ss : List String) : (∀ s ∈ ss, occL pat s.data = 0) →
    occL pat (joinNl ss).data = 0 := by
  induction ss with
  | nil =>
    intro _
    show occL pat ("" : String).data = 0
    exact occL_nil_of_ne pat hne
  | cons s rest ih =>
    intro h
    cases rest with
    | nil => exact h s (by simp)
    | cons s₂ r₂ =>
      have hd : (joinNl (s :: s₂ :: r₂)).data
          = s.data ++ '\n' :: (joinNl (s₂ :: r₂)).data := by
        show ((s ++ "\n") ++ joinNl (s₂ :: r₂)).data = _
        rw [String.data_append, String.data_append]
        have hnl1 : ("\n" : String).data = ['\n'] := rfl
        rw [hnl1, List.append_assoc, List.singleton_append]
      rw [hd, occL_split_newline pat hne hnl]
      have h1 : occL pat s.data = 0 := h s (by simp)
      have h2 : occL pat (joinNl (s₂ :: r₂)).data = 0 :=
        ih fun x hx => h x (by simp [hx])
      omega

/-! ## Association-list lemmas -/

theorem assocGet_set_self (g : List (String × String)) (k v : String) :
    assocGet (assocSet g k v) k = some v := by
  induction g with
  | nil => simp [assocSet, assocGet]
  | cons p rest ih =>
    obtain ⟨k₂, v₂⟩ := p
    by_cases h : k₂ = k
    · subst h
      simp [assocSet, assocGet]
    · simp [assocSet, assocGet, h, ih]

theorem assocGet_set_ne (g : List (String × String)) (k k₂ v : String) (h : k₂ ≠ k) :
    assocGet (assocSet g k₂ v) k = assocGet g k := by
  induction g with
  | nil => simp [assocSet, assocGet, h]
  | cons p rest ih =>
    obtain ⟨k₃, v₃⟩ := p
    by_cases h₃ : k₃ = k₂
    · subst h₃
      simp [assocSet, assocGet, h]
    · simp [assocSet, assocGet, h₃, ih]

theorem assocGet_set_split (g : List (String × String)) (k₀ v₀ k v' : String)
    (h : assocGet (assocSet g k₀ v₀) k = some v') :
    v' = v₀ ∨ assocGet g k = some v' := by
  induction g with
  | nil =>
    simp only [assocSet, assocGet] at h
    by_cases hk : k₀ = k
    · simp [hk] at h
      exact Or.inl h.symm
    · simp [hk] at h
  | cons p rest ih =>
    obtain ⟨k₂, v₂⟩ := p
    by_cases h₂ : k₂ = k₀
    · subst h₂
      simp only [assocSet, if_pos rfl, assocGet] at h
      by_cases hk : k₂ = k
      · simp [hk] at h
        exact Or.inl h.symm
      · simp only [assocGet, if_neg hk]
        exact Or.inr (by simpa [hk] using h)
    · simp only [assocSet, if_neg h₂, assocGet] at h
      by_cases hk : k₂ = k
      · simp only [assocGet, if_pos hk]
        simp [hk] at h
        exact Or.inr (by simp [h])
      · simp only [assocGet, if_neg hk]
        exact ih (by simpa [hk] using h)

/-! ## Copy-loop lemmas -/

theorem copyRule_get_ne (bundle : String → Option String) (g : List (String × String))
    (r k : String) (h : r ≠ k) :
    assocGet (copyRule bundle g r) k = assocGet g k := by
  unfold copyRule
  cases bundle r with
  | none => rfl
  | some c => exact assocGet_set_ne g k r c h

theorem copyRule_get_self (bundle : String → Option String) (g : List (String × String))
    (r v : String) (h : bundle r = some v) :
    assocGet (copyRule bundle g r) r = some v := by
  unfold copyRule
  rw [h]
  exact assocGet_set_self g r v

theorem copyRule_none (bundle : String → Option String) (g : List (String × String))
    (r : String) (h : bundle r = none) : copyRule bundle g r = g := by
  unfold copyRule
  rw [h]

theorem copyRule_value_split (bundle : String → Option String) (g : List (String × String))
    (r k v' : String) (h : assocGet (copyRule bundle g r) k = some v') :
    bundle r = some v' ∨ assocGet g k = some v' := by
  unfold copyRule at h
  cases hb : bundle r with
  | none =>
    rw [hb] at h
    exact Or.inr h
  | some c =>
    rw [hb] at h
    rcases assocGet_set_split g r c k v' h with h₁ | h₂
    · exact Or.inl (by rw [h₁])
    · exact Or.inr h₂

theorem foldl_copyRule_value (bundle : String → Option String) (P : String → Prop)
    (hb : ∀ r b, bundle r = some b → P b) (rs : List String) :
    ∀ g₀ : List (String × String), (∀ k v, assocGet g₀ k = some v → P v) →
    ∀ k v, assocGet (rs.foldl (copyRule bundle) g₀) k = some v → P v := by
  induction rs with
  | nil => exact fun g₀ hg k v h => hg k v h
  | cons r rest ih =>
    intro g₀ hg k v h
    refine ih (copyRule bundle g₀ r) ?_ k v h
    intro k' v' h'
    rcases copyRule_value_split bundle g₀ r k' v' h' with h₁ | h₂
    · exact hb r v' h₁
    · exact hg k' v' h₂

theorem mergedGov_value (bundle : String → Option String) (g₀ : List (String × String))
    (P : String → Prop) (hb : ∀ r b, bundle r = some b → P b)
    (hg : ∀ k v, assocGet g₀ k = some v → P v) :
    ∀ k v, assocGet (mergedGov bundle g₀) k = some v → P v :=
  foldl_copyRule_value bundle P hb rule_files g₀ hg

theorem mergedGov_get_bundled (bundle : String → Option String) (g₀ : List (String × String))
    (r : String) (hr : r ∈ rule_files) (v : String) (hv : bundle r = some v) :
    assocGet (mergedGov bundle g₀) r = some v := by
  have hshape : mergedGov bundle g₀ =
      copyRule bundle (copyRule bundle (copyRule bundle g₀ "architecture.md") "stack.md")
        "process.md" := rfl
  rw [hshape]
  simp only [rule_files, List.mem_cons, List.not_mem_nil, or_false] at hr
  rcases hr with rfl | rfl | rfl
  · rw [copyRule_get_ne bundle _ "process.md" _ (by decide),
      copyRule_get_ne bundle _ "stack.md" _ (by decide)]
    exact copyRule_get_self bundle _ _ v hv
  · rw [copyRule_get_ne bundle _ "process.md" _ (by decide)]
    exact copyRule_get_self bundle _ _ v hv
  · exact copyRule_get_self bundle _ _ v hv

theorem mergedGov_get_unbundled (bundle : String → Option String) (g₀ : List (String × String))
    (r : String) (hr : r ∈ rule_files) (hv : bundle r = none) :
    assocGet (mergedGov bundle g₀) r = assocGet g₀ r := by
  have hshape : mergedGov bundle g₀ =
      copyRule bundle (copyRule bundle (copyRule bundle g₀ "architecture.md") "stack.md")
        "process.md" := rfl
  rw [hshape]
  simp only [rule_files, List.mem_cons, List.not_mem_nil, or_false] at hr
  rcases hr with rfl | rfl | rfl
  · rw [copyRule_get_ne bundle _ "process.md" _ (by decide),
      copyRule_get_ne bundle _ "stack.md" _ (by decide),
      copyRule_none bundle _ _ hv]
  · rw [copyRule_get_ne bundle _ "process.md" _ (by decide), copyRule_none bundle _ _ hv,
      copyRule_get_ne bundle _ "architecture.md" _ (by decide)]
  · rw [copyRule_none bundle _ _ hv,
      copyRule_get_ne bundle _ "stack.md" _ (by decide),
      copyRule_get_ne bundle _ "architecture.md" _ (by decide)]

/-! ## Marker occurrences in the appended block -/

theorem marker_ne_nil : OVERLAY_MARKER.data ≠ [] := by decide

theorem marker_no_newline : '\n' ∉ OVERLAY_MARKER.data := by decide

theorem governanceSection_decomp (sections : List String) :
    governanceSection sections = gsPre ++ joinNl sections ++ gsPost := rfl

theorem data_governanceSection (sections : List String) :
    (governanceSection sections).data
      = gsPre.data ++ ((joinNl sections).data ++ gsPost.data) := by
  rw [governanceSection_decomp, String.data_append, String.data_append, List.append_assoc]

theorem gsPre_data_eq : gsPre.data = '\n' :: (gsPreMid.data ++ ['\n']) := by decide

theorem gsPost_data_eq : gsPost.data = '\n' :: gsPostTail.data := by decide

theorem occ_marker_gsPreMid : occL OVERLAY_MARKER.data gsPreMid.data = 1 := by decide

theorem occ_marker_gsPostTail : occL OVERLAY_MARKER.data gsPostTail.data = 0 := by decide

/-- A prior content with no marker occurrence, followed by the appended
block built from marker-free subsections, holds exactly one marker
occurrence. -/
theorem occ_marker_append_gs (c : String) (sections : List String)
    (hc : occL OVERLAY_MARKER.data c.data = 0)
    (hs : ∀ sec ∈ sections, occL OVERLAY_MARKER.data sec.data = 0) :
    occL OVERLAY_MARKER.data (c ++ governanceSection sections).data = 1 := by
  rw [String.data_append, data_governanceSection, gsPre_data_eq, gsPost_data_eq,
    List.cons_append, List.append_assoc, List.singleton_append,
    occL_split_newline _ marker_ne_nil marker_no_newline c.data,
    occL_split_newline _ marker_ne_nil marker_no_newline gsPreMid.data,
    occL_split_newline _ marker_ne_nil marker_no_newline (joinNl sections).data,
    hc, occ_marker_gsPreMid, occ_marker_gsPostTail,
    occL_joinNl _ marker_ne_nil marker_no_newline sections hs]

theorem gsPre_data_marker_decomp :
    gsPre.data = '\n' :: '\n' ::
      (OVERLAY_MARKER.data ++ ("\n\n" ++ nonNegotiableLine ++ "\n\n" : String).data) := by
  decide

/-- The appended block always contains the marker, whatever the prior
content and subsections are. -/
theorem contains_marker_append_gs (c : String) (sections : List String) :
    containsStr OVERLAY_MARKER (c ++ governanceSection sections) = true := by
  unfold containsStr
  rw [String.data_append, data_governanceSection, gsPre_data_marker_decomp,
    List.cons_append, List.cons_append, List.append_assoc]
  exact containsL_append_left _ _ _
    (containsL_cons_of_tail _ _ _
      (containsL_cons_of_tail _ _ _ (containsL_self_append _ _)))

theorem occ_header_block (Hline S : List Char)
    (hH : occL OVERLAY_MARKER.data Hline = 0) (hS : occL OVERLAY_MARKER.data S = 0) :
    occL OVERLAY_MARKER.data (Hline ++ '\n' :: '\n' :: S) = 0 := by
  rw [occL_split_newline _ marker_ne_nil marker_no_newline Hline ('\n' :: S),
    show ('\n' :: S : List Char) = [] ++ '\n' :: S from rfl,
    occL_split_newline _ marker_ne_nil marker_no_newline [] S,
    occL_nil_of_ne _ marker_ne_nil, hH, hS]

theorem occ_marker_ruleSection (r : String) (hr : r ∈ rule_files) (v : String)
    (hv : occL OVERLAY_MARKER.data v.data = 0) :
    occL OVERLAY_MARKER.data (ruleSection r v).data = 0 := by
  have hstrip : occL OVERLAY_MARKER.data (stripL v.data) = 0 := occL_strip_zero _ v hv
  simp only [rule_files, List.mem_cons, List.not_mem_nil, or_false] at hr
  rcases hr with rfl | rfl | rfl
  · have hd : (ruleSection "architecture.md" v).data
        = ("## Architecture Governance" : String).data ++ '\n' :: '\n' :: stripL v.data := by
      rw [show ruleSection "architecture.md" v
            = ("## " ++ pyTitle (pyReplace "architecture.md" ".md" "") ++ " Governance\n\n")
              ++ pyStrip v from rfl,
        String.data_append,
        show ("## " ++ pyTitle (pyReplace "architecture.md" ".md" "") ++ " Governance\n\n"
            : String).data = ("## Architecture Governance" : String).data ++ ['\n', '\n']
          from by decide,
        List.append_assoc]
      rfl
    rw [hd]
    exact occ_header_block _ _ (by decide) hstrip
  · have hd : (ruleSection "stack.md" v).data
        = ("## Stack Governance" : String).data ++ '\n' :: '\n' :: stripL v.data := by
      rw [show ruleSection "stack.md" v
            = ("## " ++ pyTitle (pyReplace "stack.md" ".md" "") ++ " Governance\n\n")
              ++ pyStrip v from rfl,
        String.data_append,
        show ("## " ++ pyTitle (pyReplace "stack.md" ".md" "") ++ " Governance\n\n"
            : String).data = ("## Stack Governance" : String).data ++ ['\n', '\n']
          from by decide,
        List.append_assoc]
      rfl
    rw [hd]
    exact occ_header_block _ _ (by decide) hstrip
  · have hd : (ruleSection "process.md" v).data
        = ("## Process Governance" : String).data ++ '\n' :: '\n' :: stripL v.data := by
      rw [show ruleSection "process.md" v
            = ("## " ++ pyTitle (pyReplace "process.md" ".md" "") ++ " Governance\n\n")
              ++ pyStrip v from rfl,
        String.data_append,
        show ("## " ++ pyTitle (pyReplace "process.md" ".md" "") ++ " Governance\n\n"
            : String).data = ("## Process Governance" : String).data ++ ['\n', '\n']
          from by decide,
        List.append_assoc]
      rfl
    rw [hd]
    exact occ_header_block _ _ (by decide) hstrip

theorem buildSections_eq (g : List (String × String)) : buildSections g =
    if (rule_files.filterMap fun r => (assocGet g r).map (ruleSection r)).isEmpty
    then [placeholderSection]
    else rule_files.filterMap fun r => (assocGet g r).map (ruleSection r) := rfl

theorem occ_marker_buildSections (g : List (String × String))
    (hg : ∀ k v, assocGet g k = some v → occL OVERLAY_MARKER.data v.data = 0) :
    ∀ sec ∈ buildSections g, occL OVERLAY_MARKER.data sec.data = 0 := by
  intro sec hsec
  rw [buildSections_eq] at hsec
  split at hsec
  · rw [List.mem_singleton] at hsec
    subst hsec
    decide
  · rw [List.mem_filterMap] at hsec
    obtain ⟨r, hr, hmap⟩ := hsec
    rw [Option.map_eq_some'] at hmap
    obtain ⟨v, hv, hsec'⟩ := hmap
    subst hsec'
    exact occ_marker_ruleSection r hr v (hg r v hv)

theorem contains_of_occ_one (pat l : List Char) (h : occL pat l = 1) :
    containsL pat l = true := by
  cases hc : containsL pat l with
  | false =>
    rw [← occL_eq_zero_iff] at hc
    omega
  | true => rfl

theorem containsL_of_isPrefixOf (pat l : List Char) (h : pat.isPrefixOf l = true) :
    containsL pat l = true := by
  cases l with
  | nil =>
    cases pat with
    | nil => rfl
    | cons p ps => simp at h
  | cons c rest =>
    simp only [containsL, Bool.or_eq_true]
    exact Or.inl h

/-- Unfolding of the merger on the applied branch: constitution present and
marker absent. -/
theorem apply_applied (bundle : String → Option String) (d : String) (s : Scaffold)
    (c : String) (hc : s.constitution = some c)
    (hm : containsStr OVERLAY_MARKER c = false) :
    applyGovernanceOverlay bundle d s =
      ({ constitution :=
           some (c ++ governanceSection (buildSections (mergedGov bundle (s.gov.getD [])))),
         gov := some (mergedGov bundle (s.gov.getD [])) }, Except.ok true) := by
  unfold applyGovernanceOverlay
  rw [hc]
  simp [hm]

theorem ruleSection_mem_buildSections (g : List (String × String)) (r : String)
    (hr : r ∈ rule_files) (b : String) (hb : assocGet g r = some b) :
    ruleSection r b ∈ buildSections g := by
  have hmem : ruleSection r b
      ∈ rule_files.filterMap fun r' => (assocGet g r').map (ruleSection r') := by
    rw [List.mem_filterMap]
    exact ⟨r, hr, by rw [hb]; rfl⟩
  rw [buildSections_eq]
  split
  · next hemp =>
    rw [List.isEmpty_iff] at hemp
    rw [hemp] at hmem
    cases hmem
  · exact hmem

/-! ## Claim theorems -/

/-- C2: on a scaffold whose `memory/constitution.md` does not exist,
`apply_governance_overlay` leaves the whole scaffold state unchanged (in
particular the governance directory is not created), raises a
`FileNotFoundError` whose message names the expected constitution path, and
raising is possible under no other condition. -/
theorem C2_missing_prerequisite (bundle : String → Option String) (d : String)
    (s : Scaffold) (hc : s.constitution = none) :
    (applyGovernanceOverlay bundle d s).1 = s ∧
    (applyGovernanceOverlay bundle d s).1.gov = s.gov ∧
    (∃ e, (applyGovernanceOverlay bundle d s).2 = Except.error e ∧
      containsStr (d ++ "/memory/constitution.md") e = true) ∧
    (∀ s₂ : Scaffold, (∃ e₂, (applyGovernanceOverlay bundle d s₂).2 = Except.error e₂) →
      s₂.constitution = none) := by
  have happ : applyGovernanceOverlay bundle d s =
      (s, Except.error
        (d ++ "/memory/constitution.md not found. Run '/speckit.constitution' first.")) := by
    unfold applyGovernanceOverlay
    rw [hc]
  refine ⟨by rw [happ], by rw [happ], ⟨_, by rw [happ], ?_⟩, ?_⟩
  · unfold containsStr
    have hmsg : (d ++ "/memory/constitution.md not found. Run '/speckit.constitution' first.").data
        = (d ++ "/memory/constitution.md").data
          ++ (" not found. Run '/speckit.constitution' first." : String).data := by
      rw [String.data_append, String.data_append, List.append_assoc]
      congr 1
    rw [hmsg]
    exact containsL_of_isPrefixOf _ _ (isPrefixOf_append_self _ _)
  · intro s₂ ⟨e₂, he₂⟩
    cases hc₂ : s₂.constitution with
    | none => rfl
    | some c₂ =>
      unfold applyGovernanceOverlay at he₂
      rw [hc₂] at he₂
      by_cases hm₂ : containsStr OVERLAY_MARKER c₂ = true
      · simp [hm₂] at he₂
      · simp [hm₂] at he₂

/-- C2 witness at a concrete scaffold with no constitution. -/
theorem C2_missing_prerequisite_witness :
    (applyGovernanceOverlay (fun _ => none) ".specify"
        { constitution := none, gov := none }).1
      = { constitution := none, gov := none } ∧
    (applyGovernanceOverlay (fun _ => none) ".specify"
        { constitution := none, gov := none }).1.gov = none ∧
    (∃ e, (applyGovernanceOverlay (fun _ => none) ".specify"
        { constitution := none, gov := none }).2 = Except.error e ∧
      containsStr (".specify" ++ "/memory/constitution.md") e = true) ∧
    (∀ s₂ : Scaffold,
      (∃ e₂, (applyGovernanceOverlay (fun _ => none) ".specify" s₂).2 = Except.error e₂) →
      s₂.constitution = none) :=
  C2_missing_prerequisite (fun _ => none) ".specify" { constitution := none, gov := none } rfl

/-- C3: with the external-init step not skipped, `--force` set, the scaffold
directory present, the constitution judged customized, and
`--destroy-content` not set, `init` exits with code 1 before any mutation:
no backup, no external-tool invocation, no overlay application, and the
world is untouched. -/
theorem C3_refuse_destructive (fl : InitFlags) (w : World) (backupOk : Bool)
    (rc : Nat) (wAfter : World) (bundle : String → Option String)
    (hexists : w.specifyExists = true)
    (hcust : isConstitutionCustomized w.constitution = true)
    (hdestroy : fl.destroyContent = false)
    (hskip : fl.skipSpeckit = false)
    (hforce : fl.force = true) :
    initCmd fl w backupOk rc wAfter bundle =
      { exitCode := 1, backupMade := false, speckitRan := false,
        overlayApplied := false, finalWorld := w } := by
  unfold initCmd
  simp [hexists, hcust, hdestroy, hskip, hforce]

/-- C3 witness: a customized constitution, `--force` without
`--destroy-content`, is refused untouched. -/
theorem C3_refuse_destructive_witness :
    initCmd { dryRun := false, force := true, skipSpeckit := false, destroyContent := false }
        { specifyExists := true, constitution := CFile.readable "We value quality.", gov := none }
        true 0
        { specifyExists := true, constitution := CFile.readable "t", gov := none }
        (fun _ => none) =
      { exitCode := 1, backupMade := false, speckitRan := false, overlayApplied := false,
        finalWorld := { specifyExists := true,
                        constitution := CFile.readable "We value quality.", gov := none } } :=
  C3_refuse_destructive _ _ _ _ _ _ rfl (by decide) rfl rfl rfl

/-- C5: when the merger applies, the new constitution is exactly the old
content with one block appended — blank-line separator, the marker line,
the fixed non-negotiability statement, the subsections joined in declared
rule order, a separator rule, and the attribution footer — so the old
content is a preserved prefix. -/
theorem C5_append_only (bundle : String → Option String) (d : String) (s : Scaffold)
    (c : String) (hc : s.constitution = some c)
    (hm : containsStr OVERLAY_MARKER c = false) :
    ∃ newC, (applyGovernanceOverlay bundle d s).1.constitution = some newC ∧
      (applyGovernanceOverlay bundle d s).2 = Except.ok true ∧
      newC = c ++ ("\n\n" ++ OVERLAY_MARKER ++ "\n\n" ++ nonNegotiableLine ++ "\n\n"
        ++ joinNl (buildSections (mergedGov bundle (s.gov.getD [])))
        ++ "\n\n---\n*Governance overlay applied by governance-kit*\n") ∧
      ∃ rest, newC = c ++ rest := by
  rw [apply_applied bundle d s c hc hm]
  exact ⟨_, rfl, rfl, rfl, ⟨_, rfl⟩⟩

/-- C5 witness at a concrete scaffold and bundle. -/
theorem C5_append_only_witness :
    ∃ newC, (applyGovernanceOverlay (fun _ => some "B") ".specify"
        { constitution := some "# C\n", gov := none }).1.constitution = some newC ∧
      (applyGovernanceOverlay (fun _ => some "B") ".specify"
        { constitution := some "# C\n", gov := none }).2 = Except.ok true ∧
      newC = "# C\n" ++ ("\n\n" ++ OVERLAY_MARKER ++ "\n\n" ++ nonNegotiableLine ++ "\n\n"
        ++ joinNl (buildSections (mergedGov (fun _ => some "B")
            (({ constitution := some "# C\n", gov := none } : Scaffold).gov.getD [])))
        ++ "\n\n---\n*Governance overlay applied by governance-kit*\n") ∧
      ∃ rest, newC = "# C\n" ++ rest :=
  C5_append_only (fun _ => some "B") ".specify"
    { constitution := some "# C\n", gov := none } "# C\n" rfl (by decide)

/-- C10 (implicit): a rule file already present in the governance directory
is overwritten with the bundled version by an eligible merge; the old
content does not survive. -/
theorem C10_rule_file_clobbered (bundle : String → Option String) (d : String)
    (s : Scaffold) (c : String) (g₀ : List (String × String))
    (hc : s.constitution = some c)
    (hm : containsStr OVERLAY_MARKER c = false)
    (_hg : s.gov = some g₀)
    (r : String) (hr : r ∈ rule_files) (old new : String)
    (_hold : assocGet g₀ r = some old) (hnew : bundle r = some new) :
    ∃ g₁, (applyGovernanceOverlay bundle d s).1.gov = some g₁ ∧
      assocGet g₁ r = some new ∧
      (old ≠ new → assocGet g₁ r ≠ some old) := by
  rw [apply_applied bundle d s c hc hm]
  refine ⟨mergedGov bundle (s.gov.getD []), rfl, ?_, ?_⟩
  · exact mergedGov_get_bundled bundle _ r hr new hnew
  · intro hne hcontra
    rw [mergedGov_get_bundled bundle _ r hr new hnew] at hcontra
    exact hne (by injection hcontra with h; exact h.symm)

/-- C10 witness: a hand-edited `architecture.md` is replaced by the bundled
text. -/
theorem C10_rule_file_clobbered_witness :
    ∃ g₁, (applyGovernanceOverlay
        (fun r => if r = "architecture.md" then some "bundled text" else none) ".specify"
        { constitution := some "# C\n",
          gov := some [("architecture.md", "hand-edited text")] }).1.gov = some g₁ ∧
      assocGet g₁ "architecture.md" = some "bundled text" ∧
      ("hand-edited text" ≠ "bundled text" →
        assocGet g₁ "architecture.md" ≠ some "hand-edited text") :=
  C10_rule_file_clobbered
    (fun r => if r = "architecture.md" then some "bundled text" else none) ".specify"
    { constitution := some "# C\n", gov := some [("architecture.md", "hand-edited text")] }
    "# C\n" [("architecture.md", "hand-edited text")] rfl (by decide) rfl
    "architecture.md" (by decide) "hand-edited text" "bundled text" (by decide) (by decide)

/-- C1: on a scaffold whose constitution exists without the overlay marker
(and no rule-document body containing the marker, whether bundled or
already in the governance directory), the merger returns `true`; an
immediately repeated call returns `false` and leaves the scaffold state
exactly as it was; and afterwards the marker occurs exactly once in the
constitution. -/
theorem C1_merge_idempotent (bundle : String → Option String) (d : String) (s : Scaffold)
    (c : String)
    (hc : s.constitution = some c)
    (hm : containsStr OVERLAY_MARKER c = false)
    (hbundle : ∀ r b, bundle r = some b → containsStr OVERLAY_MARKER b = false)
    (hgov : ∀ g, s.gov = some g → ∀ k v, assocGet g k = some v →
      containsStr OVERLAY_MARKER v = false) :
    ∃ s₁ newC,
      applyGovernanceOverlay bundle d s = (s₁, Except.ok true) ∧
      applyGovernanceOverlay bundle d s₁ = (s₁, Except.ok false) ∧
      s₁.constitution = some newC ∧
      occStr OVERLAY_MARKER newC = 1 := by
  have hg0 : ∀ k v, assocGet (s.gov.getD []) k = some v →
      occL OVERLAY_MARKER.data v.data = 0 := by
    intro k v h
    cases hsg : s.gov with
    | none =>
      rw [hsg] at h
      simp [assocGet] at h
    | some g =>
      rw [hsg] at h
      rw [occL_eq_zero_iff]
      exact hgov g hsg k v h
  have hvals : ∀ k v, assocGet (mergedGov bundle (s.gov.getD [])) k = some v →
      occL OVERLAY_MARKER.data v.data = 0 := by
    refine mergedGov_value bundle _ _ ?_ hg0
    intro r b hb
    rw [occL_eq_zero_iff]
    exact hbundle r b hb
  have hsec := occ_marker_buildSections _ hvals
  have hcocc : occL OVERLAY_MARKER.data c.data = 0 := by
    rw [occL_eq_zero_iff]
    exact hm
  have hocc : occL OVERLAY_MARKER.data
      (c ++ governanceSection (buildSections (mergedGov bundle (s.gov.getD [])))).data = 1 :=
    occ_marker_append_gs c _ hcocc hsec
  have hcontains : containsStr OVERLAY_MARKER
      (c ++ governanceSection (buildSections (mergedGov bundle (s.gov.getD [])))) = true :=
    contains_of_occ_one _ _ hocc
  refine ⟨_, _, apply_applied bundle d s c hc hm, ?_, rfl, hocc⟩
  unfold applyGovernanceOverlay
  simp [hcontains]

/-- C1 witness at a concrete scaffold and single-document bundle. -/
theorem C1_merge_idempotent_witness :
    ∃ s₁ newC,
      applyGovernanceOverlay
          (fun r => if r = "architecture.md" then some "A body" else none) ".specify"
          { constitution := some "# C\n", gov := none } = (s₁, Except.ok true) ∧
      applyGovernanceOverlay
          (fun r => if r = "architecture.md" then some "A body" else none) ".specify" s₁
        = (s₁, Except.ok false) ∧
      s₁.constitution = some newC ∧
      occStr OVERLAY_MARKER newC = 1 :=
  C1_merge_idempotent
    (fun r => if r = "architecture.md" then some "A body" else none) ".specify"
    { constitution := some "# C\n", gov := none } "# C\n" rfl (by decide)
    (by
      intro r b h
      by_cases hr : r = "architecture.md"
      · subst hr
        simp at h
        subst h
        decide
      · simp [hr] at h)
    (by
      intro g hgg
      simp at hgg)

/-- C7: immediately after a merge that returned `true`, the status check
returns the empty issue list. The bundled rules directory is not under
`src/`; per the spec it supplies all three rule documents, which is the
`hb` hypothesis. -/
theorem C7_merged_then_healthy (bundle : String → Option String) (d : String)
    (s : Scaffold) (c : String)
    (hc : s.constitution = some c) (hm : containsStr OVERLAY_MARKER c = false)
    (hb : bundleComplete bundle) :
    (applyGovernanceOverlay bundle d s).2 = Except.ok true ∧
    checkGovernanceOverlay (applyGovernanceOverlay bundle d s).1 = [] := by
  rw [apply_applied bundle d s c hc hm]
  refine ⟨rfl, ?_⟩
  have hcont := contains_marker_append_gs c (buildSections (mergedGov bundle (s.gov.getD [])))
  obtain ⟨va, hva⟩ : ∃ v, bundle "architecture.md" = some v := by
    cases hba : bundle "architecture.md" with
    | none => exact absurd hba (hb _ (by decide))
    | some v => exact ⟨v, rfl⟩
  obtain ⟨vs, hvs⟩ : ∃ v, bundle "stack.md" = some v := by
    cases hbs : bundle "stack.md" with
    | none => exact absurd hbs (hb _ (by decide))
    | some v => exact ⟨v, rfl⟩
  obtain ⟨vp, hvp⟩ : ∃ v, bundle "process.md" = some v := by
    cases hbp : bundle "process.md" with
    | none => exact absurd hbp (hb _ (by decide))
    | some v => exact ⟨v, rfl⟩
  have ga := mergedGov_get_bundled bundle (s.gov.getD []) "architecture.md" (by decide) va hva
  have gs := mergedGov_get_bundled bundle (s.gov.getD []) "stack.md" (by decide) vs hvs
  have gp := mergedGov_get_bundled bundle (s.gov.getD []) "process.md" (by decide) vp hvp
  unfold checkGovernanceOverlay
  simp [hcont, rule_files, ga, gs, gp]

/-- C7 witness at a concrete scaffold and complete bundle. -/
theorem C7_merged_then_healthy_witness :
    (applyGovernanceOverlay (fun r => some ("body of " ++ r)) ".specify"
        { constitution := some "# C\n", gov := none }).2 = Except.ok true ∧
    checkGovernanceOverlay (applyGovernanceOverlay (fun r => some ("body of " ++ r))
        ".specify" { constitution := some "# C\n", gov := none }).1 = [] :=
  C7_merged_then_healthy (fun r => some ("body of " ++ r)) ".specify"
    { constitution := some "# C\n", gov := none } "# C\n" rfl (by decide)
    (by intro r _ h; cases h)

/-- C8: an eligible merge copies every bundled rule document it can read,
silently skips each missing one (leaving any prior governance-directory
entry for that name untouched), substitutes the single placeholder
subsection when no rule file ends up in the governance directory, and still
returns `true`. -/
theorem C8_partial_bundle (bundle : String → Option String) (d : String)
    (s : Scaffold) (c : String)
    (hc : s.constitution = some c) (hm : containsStr OVERLAY_MARKER c = false) :
    (applyGovernanceOverlay bundle d s).2 = Except.ok true ∧
    ∃ g₁, (applyGovernanceOverlay bundle d s).1.gov = some g₁ ∧
      (∀ r ∈ rule_files, ∀ b, bundle r = some b → assocGet g₁ r = some b) ∧
      (∀ r ∈ rule_files, bundle r = none → assocGet g₁ r = assocGet (s.gov.getD []) r) ∧
      ((∀ r ∈ rule_files, assocGet g₁ r = none) →
        (applyGovernanceOverlay bundle d s).1.constitution
          = some (c ++ governanceSection [placeholderSection])) := by
  rw [apply_applied bundle d s c hc hm]
  refine ⟨rfl, mergedGov bundle (s.gov.getD []), rfl, ?_, ?_, ?_⟩
  · intro r hr b hbb
    exact mergedGov_get_bundled bundle _ r hr b hbb
  · intro r hr hnone
    exact mergedGov_get_unbundled bundle _ r hr hnone
  · intro hnone
    have hbs : buildSections (mergedGov bundle (s.gov.getD [])) = [placeholderSection] := by
      rw [buildSections_eq]
      have h1 := hnone "architecture.md" (by decide)
      have h2 := hnone "stack.md" (by decide)
      have h3 := hnone "process.md" (by decide)
      simp [rule_files, h1, h2, h3]
    rw [hbs]

/-- C8 witness: an entirely missing bundle still yields `applied = true`
with the placeholder subsection. -/
theorem C8_partial_bundle_witness :
    (applyGovernanceOverlay (fun _ => none) ".specify"
        { constitution := some "# C\n", gov := none }).2 = Except.ok true ∧
    ∃ g₁, (applyGovernanceOverlay (fun _ => none) ".specify"
        { constitution := some "# C\n", gov := none }).1.gov = some g₁ ∧
      (∀ r ∈ rule_files, ∀ b, (fun _ => none : String → Option String) r = some b →
        assocGet g₁ r = some b) ∧
      (∀ r ∈ rule_files, (fun _ => none : String → Option String) r = none →
        assocGet g₁ r
          = assocGet (({ constitution := some "# C\n", gov := none } : Scaffold).gov.getD []) r) ∧
      ((∀ r ∈ rule_files, assocGet g₁ r = none) →
        (applyGovernanceOverlay (fun _ => none) ".specify"
            { constitution := some "# C\n", gov := none }).1.constitution
          = some ("# C\n" ++ governanceSection [placeholderSection])) :=
  C8_partial_bundle (fun _ => none) ".specify"
    { constitution := some "# C\n", gov := none } "# C\n" rfl (by decide)

/-- Unfolding of the detector on a readable file. -/
theorem isCC_readable_eq (c : String) : isConstitutionCustomized (CFile.readable c) =
    if template_markers.any (fun m => containsStr m c) then false
    else decide (0 < (((pySplitNl c).map pyStrip).filter
      fun l => !(decide (l = "")) && !(pyStartsWith l "#")).length) := rfl

/-- C4: the customization detector returns `false` on an absent document, on
an empty document, on any readable document containing one of the template
markers, and on a document whose every line is blank or (after stripping)
starts with `#`; it returns `true` on a readable marker-free document with
at least one non-blank non-heading line, and on a document that exists but
cannot be read. -/
theorem C4_detector_case_table :
    isConstitutionCustomized CFile.absent = false ∧
    isConstitutionCustomized (CFile.readable "") = false ∧
    (∀ c m, m ∈ template_markers → containsStr m c = true →
      isConstitutionCustomized (CFile.readable c) = false) ∧
    (∀ c, (∀ l ∈ pySplitNl c, pyStrip l = "" ∨ pyStartsWith (pyStrip l) "#" = true) →
      isConstitutionCustomized (CFile.readable c) = false) ∧
    (∀ c, (∀ m ∈ template_markers, containsStr m c = false) →
      (∃ l, l ∈ pySplitNl c ∧ pyStrip l ≠ "" ∧ pyStartsWith (pyStrip l) "#" = false) →
      isConstitutionCustomized (CFile.readable c) = true) ∧
    isConstitutionCustomized CFile.unreadable = true := by
  refine ⟨rfl, by decide, ?_, ?_, ?_, rfl⟩
  · intro c m hm hcont
    have hany : (template_markers.any fun m => containsStr m c) = true :=
      List.any_eq_true.mpr ⟨m, hm, hcont⟩
    rw [isCC_readable_eq, if_pos hany]
  · intro c hl
    by_cases hany : (template_markers.any fun m => containsStr m c) = true
    · rw [isCC_readable_eq, if_pos hany]
    · have hfil : (((pySplitNl c).map pyStrip).filter
          fun l => !(decide (l = "")) && !(pyStartsWith l "#")) = [] := by
        rw [List.filter_eq_nil_iff]
        intro a ha
        rw [List.mem_map] at ha
        obtain ⟨l, hlmem, rfl⟩ := ha
        rcases hl l hlmem with h1 | h2
        · simp [h1]
        · simp [h2]
      rw [isCC_readable_eq, if_neg hany, hfil]
      rfl
  · intro c hmarkers hwit
    obtain ⟨l, hlmem, hne, hsw⟩ := hwit
    have hany : (template_markers.any fun m => containsStr m c) = false :=
      List.any_eq_false.mpr fun m hm => by simp [hmarkers m hm]
    have hmem : pyStrip l ∈ ((pySplitNl c).map pyStrip).filter
        fun l => !(decide (l = "")) && !(pyStartsWith l "#") := by
      rw [List.mem_filter]
      exact ⟨List.mem_map_of_mem pyStrip hlmem, by simp [hne, hsw]⟩
    have hpos := List.length_pos_of_mem hmem
    rw [isCC_readable_eq, if_neg (by simp [hany])]
    simpa using hpos

/-- C4 witness: a marker-free document with a content line is customized. -/
theorem C4_detector_case_table_witness :
    isConstitutionCustomized (CFile.readable "# Title\nWe value quality.\n") = true :=
  C4_detector_case_table.2.2.2.2.1 "# Title\nWe value quality.\n" (by decide)
    ⟨"We value quality.", by decide, by decide, by decide⟩

theorem string_append_left_cancel (a b c : String) (h : a ++ b = a ++ c) : b = c := by
  have hd := congrArg String.data h
  rw [String.data_append, String.data_append] at hd
  exact String.ext (List.append_cancel_left hd)

theorem mem_missing_rule_filterMap (g : List (String × String)) (x : String) :
    (x ∈ rule_files.filterMap fun r =>
        if (assocGet g r).isNone then some ("Missing rule: " ++ r) else none)
      ↔ ∃ r, r ∈ rule_files ∧ x = "Missing rule: " ++ r ∧ assocGet g r = none := by
  rw [List.mem_filterMap]
  constructor
  · rintro ⟨r, hr, hx⟩
    by_cases hn : (assocGet g r).isNone = true
    · rw [if_pos hn] at hx
      injection hx with hx
      exact ⟨r, hr, hx.symm, Option.isNone_iff_eq_none.mp hn⟩
    · rw [if_neg hn] at hx
      cases hx
  · rintro ⟨r, hr, rfl, hn⟩
    refine ⟨r, hr, ?_⟩
    rw [if_pos (Option.isNone_iff_eq_none.mpr hn)]

theorem check_mem_constitution_missing (s : Scaffold) :
    ("constitution.md not found" ∈ checkGovernanceOverlay s) ↔ s.constitution = none := by
  rcases s with ⟨con, gov⟩
  unfold checkGovernanceOverlay
  rcases con with _ | c
  · simp
  · cases hm : containsStr OVERLAY_MARKER c <;>
      rcases gov with _ | g <;>
      simp [hm, mem_missing_rule_filterMap, rule_files]

theorem check_mem_marker_absent (s : Scaffold) :
    ("Governance overlay not in constitution.md" ∈ checkGovernanceOverlay s) ↔
      ∃ c, s.constitution = some c ∧ containsStr OVERLAY_MARKER c = false := by
  rcases s with ⟨con, gov⟩
  unfold checkGovernanceOverlay
  rcases con with _ | c
  · rcases gov with _ | g <;> simp [mem_missing_rule_filterMap, rule_files]
  · cases hm : containsStr OVERLAY_MARKER c <;>
      rcases gov with _ | g <;>
      simp [hm, mem_missing_rule_filterMap, rule_files]

theorem check_mem_gov_missing (s : Scaffold) :
    ("governance/ directory not found" ∈ checkGovernanceOverlay s) ↔ s.gov = none := by
  rcases s with ⟨con, gov⟩
  unfold checkGovernanceOverlay
  rcases con with _ | c
  · rcases gov with _ | g <;> simp [mem_missing_rule_filterMap, rule_files]
  · cases hm : containsStr OVERLAY_MARKER c <;>
      rcases gov with _ | g <;>
      simp [hm, mem_missing_rule_filterMap, rule_files]

theorem check_mem_missing_rule (s : Scaffold) (r : String) (hr : r ∈ rule_files) :
    (("Missing rule: " ++ r) ∈ checkGovernanceOverlay s) ↔
      ∃ g, s.gov = some g ∧ assocGet g r = none := by
  rcases s with ⟨con, gov⟩
  unfold checkGovernanceOverlay
  simp only [rule_files, List.mem_cons, List.not_mem_nil, or_false] at hr
  rcases hr with rfl | rfl | rfl <;>
    (rcases con with _ | c
     · rcases gov with _ | g <;>
         simp [mem_missing_rule_filterMap, rule_files, string_append_left_cancel]
     · cases hm : containsStr OVERLAY_MARKER c <;>
         rcases gov with _ | g <;>
         simp [hm, mem_missing_rule_filterMap, rule_files])

/-- C6: the status check reports, together in one call, every applicable
issue: the constitution-missing issue exactly when the constitution is
absent, the overlay-not-in-constitution issue exactly when it exists
without the marker, the governance-directory issue exactly when that
directory is absent, and one missing-rule issue per expected rule filename
absent from an existing governance directory. -/
theorem C6_status_check_complete (s : Scaffold) :
    (("constitution.md not found" ∈ checkGovernanceOverlay s) ↔ s.constitution = none) ∧
    (("Governance overlay not in constitution.md" ∈ checkGovernanceOverlay s) ↔
      ∃ c, s.constitution = some c ∧ containsStr OVERLAY_MARKER c = false) ∧
    (("governance/ directory not found" ∈ checkGovernanceOverlay s) ↔ s.gov = none) ∧
    (∀ r ∈ rule_files, (("Missing rule: " ++ r) ∈ checkGovernanceOverlay s) ↔
      ∃ g, s.gov = some g ∧ assocGet g r = none) :=
  ⟨check_mem_constitution_missing s, check_mem_marker_absent s, check_mem_gov_missing s,
    fun r hr => check_mem_missing_rule s r hr⟩

/-- C6 witness: on a scaffold with an unmerged constitution and no
governance directory, both headline issues are reported. -/
theorem C6_status_check_complete_witness :
    ("Governance overlay not in constitution.md"
        ∈ checkGovernanceOverlay { constitution := some "# C\n", gov := none }) ∧
    ("governance/ directory not found"
        ∈ checkGovernanceOverlay { constitution := some "# C\n", gov := none }) :=
  ⟨(C6_status_check_complete { constitution := some "# C\n", gov := none }).2.1.mpr
      ⟨"# C\n", rfl, by decide⟩,
    (C6_status_check_complete { constitution := some "# C\n", gov := none }).2.2.1.mpr rfl⟩

/-- C9 counterexample: with `architecture.md` present in the governance
directory holding `"Some rule text."`, the built subsection is
`"## Architecture Governance\n\nSome rule text."`, not the claimed
`"## Architecture\n\nSome rule text."` (heading text exactly the
title-cased stem). -/
theorem C9_heading_counterexample :
    buildSections [("architecture.md", "Some rule text.")]
        = ["## Architecture Governance\n\nSome rule text."] ∧
    "## Architecture\n\nSome rule text."
        ∉ buildSections [("architecture.md", "Some rule text.")] := by
  decide

/-- C9 (amended): the appended subsection's heading text is the rule
filename's stem, title-cased, followed by the word `Governance`; the
heading is followed by the rule file's content trimmed of surrounding
whitespace, and the subsection appears among the built subsections. -/
theorem C9_subsection_heading_amended (g : List (String × String)) (r : String)
    (hr : r ∈ rule_files) (b : String) (hb : assocGet g r = some b) :
    ruleSection r b
        = "## " ++ pyTitle (pyReplace r ".md" "") ++ " Governance" ++ "\n\n" ++ pyStrip b ∧
    ruleSection r b ∈ buildSections g := by
  refine ⟨?_, ruleSection_mem_buildSections g r hr b hb⟩
  simp only [rule_files, List.mem_cons, List.not_mem_nil, or_false] at hr
  rcases hr with rfl | rfl | rfl
  · show ("## " ++ pyTitle (pyReplace "architecture.md" ".md" "") ++ " Governance\n\n")
        ++ pyStrip b = _
    congr 1
  · show ("## " ++ pyTitle (pyReplace "stack.md" ".md" "") ++ " Governance\n\n")
        ++ pyStrip b = _
    congr 1
  · show ("## " ++ pyTitle (pyReplace "process.md" ".md" "") ++ " Governance\n\n")
        ++ pyStrip b = _
    congr 1

/-- C9 amended witness at a concrete rule file. -/
theorem C9_subsection_heading_amended_witness :
    ruleSection "stack.md" " Stack body.\n"
        = "## " ++ pyTitle (pyReplace "stack.md" ".md" "") ++ " Governance" ++ "\n\n"
          ++ pyStrip " Stack body.\n" ∧
    ruleSection "stack.md" " Stack body.\n"
        ∈ buildSections [("stack.md", " Stack body.\n")] :=
  C9_subsection_heading_amended [("stack.md", " Stack body.\n")] "stack.md" (by decide)
    " Stack body.\n" (by decide)

end GovKit
